import Mathlib

/-!
Verification of the libnar NAR (Nix Archive) codec against its specification.

The development shallowly embeds the code of `src/ser.rs` and `src/de.rs`:
byte streams are `List Nat` (each element a byte value), machine `u64`
lengths are `Nat` with explicit little-endian encoding over 8 bytes, and
fallible operations return `Except Error _` mirroring the library's
`Result` type.  Filesystem trees are the mutual inductive `Node`/`Children`;
the serializer and the recursive-descent deserializer are translated
function by function from the source.
-/

namespace Libnar

/-- `PAD_LEN` from `lib.rs`: every framed byte string is padded to a
multiple of 8 bytes. -/
def PAD_LEN : Nat := 8

/-- `NIX_VERSION_MAGIC` from `lib.rs`: the bytes of the ASCII string
`nix-archive-1`. -/
def NIX_VERSION_MAGIC : List Nat :=
  [110, 105, 120, 45, 97, 114, 99, 104, 105, 118, 101, 45, 49]

/-! ## Little-endian u64 encoding (`u64::to_le_bytes` / `u64::from_le_bytes`) -/

/-- Little-endian base-256 digits of `n`, `w` bytes wide
(`u64::to_le_bytes` is `toLE 8`). -/
def toLE : Nat → Nat → List Nat
  | 0, _ => []
  | w + 1, n => n % 256 :: toLE w (n / 256)

/-- Recompose a little-endian byte list into a natural number
(`u64::from_le_bytes`). -/
def fromLE : List Nat → Nat
  | [] => 0
  | b :: bs => b + 256 * fromLE bs

/-! ## Framing primitives (`ser.rs` lines 74–105) -/

/-- The zero padding written after a payload of length `len`
(`ser.rs` lines 79–84 and 97–102: `if remainder > 0` write
`PAD_LEN - remainder` zero bytes, else nothing). -/
def pad_for (len : Nat) : List Nat :=
  if len % PAD_LEN > 0 then List.replicate (PAD_LEN - len % PAD_LEN) 0 else []

/-- `write_padded` (`ser.rs` lines 74–87): LE u64 length, payload verbatim,
then zero padding to the next multiple of `PAD_LEN`. -/
def write_padded (bytes : List Nat) : List Nat :=
  toLE 8 bytes.length ++ bytes ++ pad_for bytes.length

/-- `write_padded_from_reader` (`ser.rs` lines 89–105): writes the LE u64 of
the *advertised* length `len`, then copies the reader to the writer until
EOF (`io::copy`), then pads according to `len`.  `supplied` is the byte
sequence the reader yields before EOF.  The `io::Result` is modelled with
`Except Unit`; absent I/O failures the function always succeeds — the
source never compares the copied byte count with `len`. -/
def write_padded_from_reader (len : Nat) (supplied : List Nat) :
    Except Unit (List Nat) :=
  .ok (toLE 8 len ++ supplied ++ pad_for len)

/-! ## Error and tag vocabulary (`de.rs` lines 61–107) -/

/-- The tag vocabulary of `define_tags!` (`de.rs` lines 61–77). -/
inductive Tag where
  | empty
  | opn
  | close
  | type
  | regular
  | symlink
  | directory
  | entry
  | contents
  | executable
  | target
  | name
  | node
deriving DecidableEq

/-- ASCII bytes of each tag (`Tag::into_str`). -/
def Tag.into_str : Tag → List Nat
  | .empty => []
  | .opn => [40]
  | .close => [41]
  | .type => [116, 121, 112, 101]
  | .regular => [114, 101, 103, 117, 108, 97, 114]
  | .symlink => [115, 121, 109, 108, 105, 110, 107]
  | .directory => [100, 105, 114, 101, 99, 116, 111, 114, 121]
  | .entry => [101, 110, 116, 114, 121]
  | .contents => [99, 111, 110, 116, 101, 110, 116, 115]
  | .executable => [101, 120, 101, 99, 117, 116, 97, 98, 108, 101]
  | .target => [116, 97, 114, 103, 101, 116]
  | .name => [110, 97, 109, 101]
  | .node => [110, 111, 100, 101]

/-- Path components as classified by Rust's `std::path::Component`
(`de.rs` line 458 matches on them). -/
inductive Component where
  | prefixComp
  | rootDir
  | curDir
  | parentDir
  | normal (name : List Nat)
deriving DecidableEq

/-- The error taxonomy (`de.rs` lines 85–107).  String payloads are byte
lists; the Rust `char` payload of `InvalidDirEntryChar` is a code point.
`Fuel` is a modelling artifact: the Lean parser carries a fuel bound for
totality where the Rust recursion is unbounded; every theorem below
supplies enough fuel that `Fuel` never arises. -/
inductive Error where
  | GetEntriesAfterRead
  | InvalidMagic
  | BadPadding
  | MissingTag (t : Tag)
  | InvalidTag (t : Tag)
  | InvalidDirEntryName (name : List Nat)
  | InvalidDirEntryChar (c : Nat)
  | InvalidDirEntry
  | UnknownFileType (ft : List Nat)
  | InvalidPathComponent (path : List Component)
  | ioError
  | utf8Error
  | Fuel
deriving DecidableEq

/-! ## Reading framed strings (`de.rs` lines 222–254) -/

/-- `Read::read_exact` over a list-modelled stream: take `n` bytes or fail
with an I/O error (`ErrorKind::UnexpectedEof`, surfaced as `Error::Io`). -/
def read_exact (n : Nat) (s : List Nat) : Except Error (List Nat × List Nat) :=
  if n ≤ s.length then .ok (s.take n, s.drop n) else .error .ioError

/-- `Archive::read_bytes_padded` (`de.rs` lines 227–246): read the LE u64
length, the payload, and — when the payload length is not a multiple of
`PAD_LEN` — the padding bytes, which must all be zero.  The source reads
the padding into an all-zero 8-byte buffer and checks the whole buffer for
zero, which is equivalent to checking the bytes actually read. -/
def read_bytes_padded (s : List Nat) : Except Error (List Nat × List Nat) :=
  match read_exact PAD_LEN s with
  | .error e => .error e
  | .ok (len_buffer, s) =>
    match read_exact (fromLE len_buffer) s with
    | .error e => .error e
    | .ok (data_buffer, s) =>
      if data_buffer.length % PAD_LEN > 0 then
        match read_exact (PAD_LEN - data_buffer.length % PAD_LEN) s with
        | .error e => .error e
        | .ok (padding, s) =>
          if padding.all (fun b => b = 0) then .ok (data_buffer, s)
          else .error .BadPadding
      else
        .ok (data_buffer, s)

/-! ## UTF-8 validation (`String::from_utf8` in `read_utf8_padded`) -/

/-- UTF-8 continuation byte: `0x80 ≤ b ≤ 0xBF`. -/
def isCont (b : Nat) : Bool := 128 ≤ b && b ≤ 191

/-- Validity of a byte sequence as UTF-8, exactly the condition under which
Rust's `String::from_utf8` succeeds (RFC 3629: no overlong forms, no
surrogates, code points at most `U+10FFFF`). -/
def isUTF8 : List Nat → Bool
  | [] => true
  | b :: r =>
    if b ≤ 127 then isUTF8 r
    else if 194 ≤ b && b ≤ 223 then
      match r with
      | c1 :: r' => isCont c1 && isUTF8 r'
      | [] => false
    else if b = 224 then
      match r with
      | c1 :: c2 :: r' => (160 ≤ c1 && c1 ≤ 191) && isCont c2 && isUTF8 r'
      | _ => false
    else if (225 ≤ b && b ≤ 236) || b = 238 || b = 239 then
      match r with
      | c1 :: c2 :: r' => isCont c1 && isCont c2 && isUTF8 r'
      | _ => false
    else if b = 237 then
      match r with
      | c1 :: c2 :: r' => (128 ≤ c1 && c1 ≤ 159) && isCont c2 && isUTF8 r'
      | _ => false
    else if b = 240 then
      match r with
      | c1 :: c2 :: c3 :: r' =>
        (144 ≤ c1 && c1 ≤ 191) && isCont c2 && isCont c3 && isUTF8 r'
      | _ => false
    else if 241 ≤ b && b ≤ 243 then
      match r with
      | c1 :: c2 :: c3 :: r' => isCont c1 && isCont c2 && isCont c3 && isUTF8 r'
      | _ => false
    else if b = 244 then
      match r with
      | c1 :: c2 :: c3 :: r' =>
        (128 ≤ c1 && c1 ≤ 143) && isCont c2 && isCont c3 && isUTF8 r'
      | _ => false
    else false

/-- `Archive::read_utf8_padded` (`de.rs` lines 222–225): read a frame and
decode it as UTF-8; invalid UTF-8 is `Error::Utf8`.  A decoded Rust
`String` compares equal to another exactly when their byte sequences are
equal, so the model keeps the byte list as the result. -/
def read_utf8_padded (s : List Nat) : Except Error (List Nat × List Nat) :=
  match read_bytes_padded s with
  | .error e => .error e
  | .ok (bytes, s) =>
    if isUTF8 bytes then .ok (bytes, s) else .error .utf8Error

/-- `Archive::expect_tag` (`de.rs` lines 248–254). -/
def expect_tag (t : Tag) (s : List Nat) : Except Error (List Nat) :=
  match read_utf8_padded s with
  | .error e => .error e
  | .ok (b, s) => if b = t.into_str then .ok s else .error (.MissingTag t)

/-! ## Filesystem trees (`Node` as in spec §3; children carry names) -/

mutual
/-- A logical NAR node: regular file (with executable flag and contents),
symlink (with target bytes), or directory (with named children).  Byte
strings are what the serializer frames: names come from
`entry.file_name().to_string_lossy().as_bytes()` and targets from
`fs::read_link(..).to_string_lossy().as_bytes()` (`ser.rs` lines 44, 64),
so on the encoder side they are valid UTF-8 by construction. -/
inductive Node where
  | regular (executable : Bool) (data : List Nat) : Node
  | symlink (target : List Nat) : Node
  | directory (children : Children) : Node
deriving DecidableEq

/-- The named children of a directory, in the (arbitrary) order the
filesystem returned them from `fs::read_dir`. -/
inductive Children where
  | nil : Children
  | cons (name : List Nat) (node : Node) (rest : Children) : Children
deriving DecidableEq
end

/-! ## Byte-lexicographic order and the serializer's sibling sort
(`ser.rs` lines 37–38: `entries.sort_by(|x, y| x.path().cmp(&y.path()))`;
sibling paths share every component except the final file name, so the
comparison is the byte-lexicographic comparison of the names). -/

/-- Byte-lexicographic `≤` on byte strings (Rust's `Ord` for `[u8]`,
`OsStr` and sibling `Path`s: shorter prefixes sort first). -/
def lexLe : List Nat → List Nat → Bool
  | [], _ => true
  | _ :: _, [] => false
  | a :: as, b :: bs => if a < b then true else if b < a then false else lexLe as bs

/-- Byte-lexicographic `<` on byte strings. -/
def lexLt : List Nat → List Nat → Bool
  | [], [] => false
  | [], _ :: _ => true
  | _ :: _, [] => false
  | a :: as, b :: bs => if a < b then true else if b < a then false else lexLt as bs

/-- One insertion step of the sibling sort, keyed on the name component. -/
def insort_frame (c : List Nat × List Nat) :
    List (List Nat × List Nat) → List (List Nat × List Nat)
  | [] => [c]
  | d :: ds => if lexLe c.1 d.1 then c :: d :: ds else d :: insort_frame c ds

/-- Sorting the `(name, encoded child)` pairs by byte-lexicographic name
order; with pairwise-distinct sibling names (a filesystem invariant) this
produces the same arrangement as the stable `sort_by` of the source. -/
def sort_frames : List (List Nat × List Nat) → List (List Nat × List Nat)
  | [] => []
  | c :: cs => insort_frame c (sort_frames cs)

/-- The frame sequence emitted per directory child
(`ser.rs` lines 40–48): `entry ( name <name> node <child> )`. -/
def entry_frame (name frame : List Nat) : List Nat :=
  write_padded Tag.entry.into_str ++ write_padded Tag.opn.into_str ++
  write_padded Tag.name.into_str ++ write_padded name ++
  write_padded Tag.node.into_str ++ frame ++ write_padded Tag.close.into_str

/-- Concatenation of the per-child frames in list order. -/
def frames_concat : List (List Nat × List Nat) → List Nat
  | [] => []
  | (n, f) :: r => entry_frame n f ++ frames_concat r

mutual
/-- `encode_entry` (`ser.rs` lines 28–72).  The source sorts the directory
listing and then encodes each child in sorted order; since each child's
frame depends only on the child, this equals encoding every child and
sorting the `(name, frame)` pairs by name, which is how the recursion is
arranged here (the sort is keyed on names in both).  A regular file's
contents are streamed with `write_padded_from_reader` at the length
reported by metadata; with the reader yielding exactly the file's bytes
that frame is `write_padded data` (theorem
`write_padded_from_reader_exact` below). -/
def encode_entry : Node → List Nat
  | .regular executable data =>
    write_padded Tag.opn.into_str ++ write_padded Tag.type.into_str ++
    write_padded Tag.regular.into_str ++
    (if executable then
      write_padded Tag.executable.into_str ++ write_padded Tag.empty.into_str
     else []) ++
    write_padded Tag.contents.into_str ++ write_padded data ++
    write_padded Tag.close.into_str
  | .symlink target =>
    write_padded Tag.opn.into_str ++ write_padded Tag.type.into_str ++
    write_padded Tag.symlink.into_str ++ write_padded Tag.target.into_str ++
    write_padded target ++ write_padded Tag.close.into_str
  | .directory cs =>
    write_padded Tag.opn.into_str ++ write_padded Tag.type.into_str ++
    write_padded Tag.directory.into_str ++
    frames_concat (sort_frames (encode_children cs)) ++
    write_padded Tag.close.into_str

/-- The `(name, encoded child frame)` pairs of a directory listing. -/
def encode_children : Children → List (List Nat × List Nat)
  | .nil => []
  | .cons n t r => (n, encode_entry t) :: encode_children r
end

/-- `to_writer` (`ser.rs` lines 14–26): magic frame, then the root node.
The existence check on the path is inherent in being handed the tree. -/
def to_writer (t : Node) : List Nat :=
  write_padded NIX_VERSION_MAGIC ++ encode_entry t

/-! ## Parsed entries (`de.rs` lines 386–440, 552–556) -/

/-- `EntryKind` (`de.rs` lines 552–556). -/
inductive EntryKind where
  | Directory
  | Regular (executable : Bool) (data : List Nat)
  | Symlink (target : List Nat)
deriving DecidableEq

/-- `Entry` (`de.rs` lines 386–392): the path of the node relative to the
archive root (a list of name components, empty for the root) and its kind.
The `canonicalize_mtime`/`remove_xattrs` flags copied from the archive are
modelled as separate arguments of `unpack_in`. -/
structure Entry where
  name : List (List Nat)
  kind : EntryKind
deriving DecidableEq

/-- `Entry::is_dir` (`de.rs` lines 410–416). -/
def Entry.is_dir (e : Entry) : Bool :=
  match e.kind with
  | .Directory => true
  | _ => false

/-- `Entry::is_executable` (`de.rs` lines 418–424). -/
def Entry.is_executable (e : Entry) : Bool :=
  match e.kind with
  | .Regular executable _ => executable
  | _ => false

/-- `Entry::is_file` (`de.rs` lines 426–432). -/
def Entry.is_file (e : Entry) : Bool :=
  match e.kind with
  | .Regular executable _ => !executable
  | _ => false

/-- `Entry::is_symlink` (`de.rs` lines 434–440). -/
def Entry.is_symlink (e : Entry) : Bool :=
  match e.kind with
  | .Symlink _ => true
  | _ => false

/-! ## The recursive-descent parser (`de.rs` lines 267–384)

`try_parse` translates the generator `try_parse` of the source; the entry
list of the result is the sequence of values the generator yields, in
order, and the `Node` records the structure the yields traverse.  The
directory loop (`de.rs` lines 349–378) is `try_parse_entries`.  `fuel`
bounds the recursion depth for totality; the Rust recursion is unbounded
and every theorem below supplies sufficient fuel. -/

mutual
def try_parse (fuel : Nat) (path : List (List Nat)) (s : List Nat) :
    Except Error ((Node × List Entry) × List Nat) :=
  match fuel with
  | 0 => .error .Fuel
  | fuel + 1 =>
    match expect_tag .opn s with
    | .error e => .error e
    | .ok s =>
    match expect_tag .type s with
    | .error e => .error e
    | .ok s =>
    match read_utf8_padded s with
    | .error e => .error e
    | .ok (ft, s) =>
    if ft = Tag.regular.into_str then
      -- `LookAhead::fetch_from` then `eat_tag(Executable)`
      match read_utf8_padded s with
      | .error e => .error e
      | .ok (la, s) =>
      if la = Tag.executable.into_str then
        -- any failure of `expect_tag(Empty)` becomes `InvalidTag(Executable)`
        match expect_tag .empty s with
        | .error _ => .error (.InvalidTag .executable)
        | .ok s =>
        match read_utf8_padded s with
        | .error e => .error e
        | .ok (la2, s) =>
        if la2 = Tag.contents.into_str then
          match read_bytes_padded s with
          | .error e => .error e
          | .ok (data, s) =>
          match expect_tag .close s with
          | .error e => .error e
          | .ok s => .ok ((.regular true data, [⟨path, .Regular true data⟩]), s)
        else .error (.MissingTag .contents)
      else
        if la = Tag.contents.into_str then
          match read_bytes_padded s with
          | .error e => .error e
          | .ok (data, s) =>
          match expect_tag .close s with
          | .error e => .error e
          | .ok s => .ok ((.regular false data, [⟨path, .Regular false data⟩]), s)
        else .error (.MissingTag .contents)
    else if ft = Tag.symlink.into_str then
      match expect_tag .target s with
      | .error e => .error e
      | .ok s =>
      match read_utf8_padded s with
      | .error e => .error e
      | .ok (target, s) =>
      match expect_tag .close s with
      | .error e => .error e
      | .ok s => .ok ((.symlink target, [⟨path, .Symlink target⟩]), s)
    else if ft = Tag.directory.into_str then
      -- the Directory entry is yielded before the children are parsed
      match try_parse_entries fuel path s with
      | .error e => .error e
      | .ok ((children, entries), s) =>
        .ok ((.directory children, ⟨path, .Directory⟩ :: entries), s)
    else .error (.UnknownFileType ft)

def try_parse_entries (fuel : Nat) (path : List (List Nat)) (s : List Nat) :
    Except Error ((Children × List Entry) × List Nat) :=
  match fuel with
  | 0 => .error .Fuel
  | fuel + 1 =>
    match read_utf8_padded s with
    | .error e => .error e
    | .ok (tag, s) =>
    if tag = Tag.entry.into_str then
      match expect_tag .opn s with
      | .error e => .error e
      | .ok s =>
      match expect_tag .name s with
      | .error e => .error e
      | .ok s =>
      match read_utf8_padded s with
      | .error e => .error e
      | .ok (entry_name, s) =>
      -- `de.rs` lines 356–365: name validation
      if entry_name = [] then .error (.InvalidDirEntryName [])
      else if entry_name = [126] then .error (.InvalidDirEntryName [126])
      else if entry_name = [46] then .error (.InvalidDirEntryName [46])
      else if entry_name = [46, 46] then .error (.InvalidDirEntryName [46, 46])
      else if entry_name.contains 47 then .error (.InvalidDirEntryChar 47)
      else
        match expect_tag .node s with
        | .error e => .error e
        | .ok s =>
        match try_parse fuel (path ++ [entry_name]) s with
        | .error e => .error e
        | .ok ((child, child_entries), s) =>
        match expect_tag .close s with
        | .error e => .error e
        | .ok s =>
        match try_parse_entries fuel path s with
        | .error e => .error e
        | .ok ((rest_children, rest_entries), s) =>
          .ok ((.cons entry_name child rest_children,
                child_entries ++ rest_entries), s)
    else if tag = Tag.close.into_str then
      .ok ((.nil, []), s)
    else .error .InvalidDirEntry
end

/-- `Archive::entries_inner` plus `parse` (`de.rs` lines 204–212 and
267–271): check the magic frame, then parse the root node with the empty
path.  The reader-position check of `entries_inner` is inherent in the
model (the stream argument is the whole input). -/
def parse_archive (fuel : Nat) (s : List Nat) :
    Except Error ((Node × List Entry) × List Nat) :=
  match read_bytes_padded s with
  | .error e => .error e
  | .ok (magic, s) =>
    if magic ≠ NIX_VERSION_MAGIC then .error .InvalidMagic
    else try_parse fuel [] s

/-! ## Pre-order flattening of a tree (the yield sequence of the parser) -/

mutual
/-- The entries a tree contributes in pre-order depth-first traversal: a
directory yields itself before any descendant, and a node at relative path
`path` joins each child name onto `path`. -/
def flatten_pre : List (List Nat) → Node → List Entry
  | path, .regular executable data => [⟨path, .Regular executable data⟩]
  | path, .symlink target => [⟨path, .Symlink target⟩]
  | path, .directory cs => ⟨path, .Directory⟩ :: flatten_children path cs

/-- Pre-order entries of a child list. -/
def flatten_children : List (List Nat) → Children → List Entry
  | _, .nil => []
  | path, .cons n t r => flatten_pre (path ++ [n]) t ++ flatten_children path r
end

/-! ## Validity and canonical sortedness of trees -/

/-- The parser's name validation (`de.rs` lines 356–365): non-empty, not
`~`, not `.`, not `..`, containing no `/` byte. -/
def validName (n : List Nat) : Bool :=
  !(n == []) && !(n == [126]) && !(n == [46]) && !(n == [46, 46]) &&
    !(n.contains 47)

mutual
/-- Every name and symlink target is valid UTF-8 and passes the parser's
name validation, and every byte-string length fits in a `u64` (the wire
format's length prefix). -/
def validNode : Node → Bool
  | .regular _ data => decide (data.length < 2 ^ 64)
  | .symlink target => isUTF8 target && decide (target.length < 2 ^ 64)
  | .directory cs => validChildren cs

def validChildren : Children → Bool
  | .nil => true
  | .cons n t r =>
    validName n && isUTF8 n && decide (n.length < 2 ^ 64) &&
      validNode t && validChildren r
end

/-- Sibling names are in (non-strict) byte-lexicographic order. -/
def namesSortedLe : Children → Bool
  | .nil => true
  | .cons _ _ .nil => true
  | .cons n _ (.cons m t r) => lexLe n m && namesSortedLe (.cons m t r)

mutual
/-- Every directory in the tree lists its children in byte-lexicographic
name order (the canonical form the serializer produces). -/
def sortedNode : Node → Bool
  | .regular _ _ => true
  | .symlink _ => true
  | .directory cs => namesSortedLe cs && sortedChildren cs

def sortedChildren : Children → Bool
  | .nil => true
  | .cons _ t r => sortedNode t && sortedChildren r
end

/-- The names of a child list, in order. -/
def childNames : Children → List (List Nat)
  | .nil => []
  | .cons n _ r => n :: childNames r

/-- Adjacent keys strictly increase (byte-lexicographically). -/
def keysStrictLt : List (List Nat × List Nat) → Bool
  | [] => true
  | [_] => true
  | c :: d :: r => lexLt c.1 d.1 && keysStrictLt (d :: r)

/-! ## Fuel bounds for the parser -/

mutual
/-- Fuel sufficient for `try_parse` on the encoding of a tree. -/
def needFuel : Node → Nat
  | .regular _ _ => 1
  | .symlink _ => 1
  | .directory cs => 1 + needFuelChildren cs

/-- Fuel sufficient for `try_parse_entries` on an encoded child list. -/
def needFuelChildren : Children → Nat
  | .nil => 1
  | .cons _ t r => 1 + max (needFuel t) (needFuelChildren r)
end

/-! ## The unpacker's destination-path check (`de.rs` lines 450–505)

`unpack_in` is modelled up to the filesystem: its outputs are the ordered
abstract filesystem operations the success path performs.  Operations
whose execution depends on on-disk state (remove-if-exists, the
restore-parent-mtime that fires only when the captured parent metadata was
canonicalized) are folded into single composite operations.  What matters
for the claims is that the component check runs first: on a bad component
the function returns `InvalidPathComponent` and performs none of them. -/

/-- The abstract filesystem operations of `Entry::unpack_in`. -/
inductive FsOp where
  | readMetadata (path : List Component)
  | createDirAllowExisting (path : List Component)
  | removeIfExists (path : List Component)
  | createNewFile (path : List Component) (mode : Nat) (data : List Nat)
  | createSymlink (path : List Component) (target : List Nat)
  | removeAllXattrs (path : List Component)
  | setMtimeToEpoch (path : List Component)
  | restoreParentMtimeIfCaptured (path : List Component)
deriving DecidableEq

/-- The destination path of `unpack_in` (`de.rs` lines 451–456): `dst`
itself when the entry's relative path is empty, else `dst` joined with the
relative path (whose components are all `Normal`, since entry names are
validated at parse time). -/
def joined_dest (name : List (List Nat)) (dst : List Component) : List Component :=
  if name = [] then dst else dst ++ name.map Component.normal

/-- The component classes rejected by `unpack_in` (`de.rs` lines 458–464):
`Prefix`, `RootDir` and `ParentDir`. -/
def is_bad_component : Component → Bool
  | .prefixComp => true
  | .rootDir => true
  | .parentDir => true
  | _ => false

/-- `Entry::unpack_in` (`de.rs` lines 450–505). -/
def unpack_in (kind : EntryKind) (name : List (List Nat))
    (canonicalize_mtime remove_xattrs : Bool) (dst : List Component) :
    Except Error (List FsOp) :=
  let path := joined_dest name dst
  if path.any is_bad_component then
    .error (.InvalidPathComponent path)
  else
    -- parent-recanonicalization capture (`de.rs` lines 466–476)
    (if name = [] then [] else [FsOp.readMetadata path.dropLast]) ++
    -- write the node (`de.rs` lines 478–482, 507–540)
    (match kind with
     | .Directory => [FsOp.createDirAllowExisting path]
     | .Regular executable data =>
       [FsOp.removeIfExists path,
        FsOp.createNewFile path (if executable then 0o555 else 0o444) data]
     | .Symlink target =>
       [FsOp.removeIfExists path, FsOp.createSymlink path target]) ++
    -- xattr stripping (`de.rs` lines 484–489)
    (if remove_xattrs then [FsOp.removeAllXattrs path] else []) ++
    -- mtime canonicalization (`de.rs` lines 491–495)
    (if canonicalize_mtime then
      [FsOp.readMetadata path, FsOp.setMtimeToEpoch path]
     else []) ++
    -- parent restoration (`de.rs` lines 497–502)
    (if name = [] then [] else [FsOp.restoreParentMtimeIfCaptured path.dropLast])
    |> .ok

/-! # Theorems -/

/-! ## Arithmetic and framing lemmas -/

theorem toLE_length (w n : Nat) : (toLE w n).length = w := by
  induction w generalizing n with
  | zero => rfl
  | succ w ih => simp [toLE, ih]

theorem fromLE_toLE (w n : Nat) (h : n < 256 ^ w) : fromLE (toLE w n) = n := by
  induction w generalizing n with
  | zero =>
    have : n = 0 := by simpa using Nat.lt_one_iff.mp (by simpa using h)
    simp [this, toLE, fromLE]
  | succ w ih =>
    have hdiv : n / 256 < 256 ^ w := by
      apply Nat.div_lt_of_lt_mul
      calc n < 256 ^ (w + 1) := h
        _ = 256 * 256 ^ w := by ring
    simp [toLE, fromLE, ih _ hdiv]
    omega

theorem read_exact_append (x r : List Nat) :
    read_exact x.length (x ++ r) = .ok (x, r) := by
  simp [read_exact]

/-- Reading a frame produced by `write_padded` returns the payload and
leaves the rest of the stream untouched. -/
theorem read_write_padded (b r : List Nat) (h : b.length < 2 ^ 64) :
    read_bytes_padded (write_padded b ++ r) = .ok (b, r) := by
  have h256 : b.length < 256 ^ 8 := by norm_num at h ⊢; omega
  have hlen8 : (toLE 8 b.length).length = 8 := toLE_length 8 b.length
  have step1 :
      read_exact PAD_LEN (write_padded b ++ r) =
        .ok (toLE 8 b.length, b ++ (pad_for b.length ++ r)) := by
    have h2 := read_exact_append (toLE 8 b.length) (b ++ (pad_for b.length ++ r))
    rw [hlen8] at h2
    simpa [write_padded, PAD_LEN, List.append_assoc] using h2
  have step2 := read_exact_append b (pad_for b.length ++ r)
  by_cases hm : b.length % PAD_LEN > 0
  · have hpad : pad_for b.length = List.replicate (PAD_LEN - b.length % PAD_LEN) 0 := by
      simp [pad_for, hm]
    have step3 := read_exact_append (pad_for b.length) r
    rw [hpad, List.length_replicate] at step3
    rw [hpad] at step2
    simp only [read_bytes_padded, step1, fromLE_toLE 8 b.length h256, step2,
      hm, if_true, step3, hpad]
    simp
  · have hpad : pad_for b.length = [] := by
      simp [pad_for, hm]
    rw [hpad] at step2
    simp only [List.nil_append] at step2
    simp only [read_bytes_padded, step1, fromLE_toLE 8 b.length h256, hpad,
      List.nil_append, step2, hm, if_false]

theorem read_utf8_frame (b r : List Nat) (h : b.length < 2 ^ 64)
    (hu : isUTF8 b = true) :
    read_utf8_padded (write_padded b ++ r) = .ok (b, r) := by
  simp [read_utf8_padded, read_write_padded b r h, hu]

theorem expect_tag_frame (t : Tag) (r : List Nat) :
    expect_tag t (write_padded t.into_str ++ r) = .ok r := by
  have hl : (t.into_str).length < 2 ^ 64 := by cases t <;> decide
  have hu : isUTF8 t.into_str = true := by cases t <;> decide
  simp [expect_tag, read_utf8_frame t.into_str r hl hu]

/-- The contents frame of a regular file: when the reader yields exactly
the `len` bytes advertised, `write_padded_from_reader` produces the
`write_padded` frame of those bytes. -/
theorem write_padded_from_reader_exact (b : List Nat) :
    write_padded_from_reader b.length b = .ok (write_padded b) := rfl

/-! ## C9 — `write_padded` layout -/

/-- C9: `write_padded(w, b)` writes the little-endian 64-bit length of `b`,
then `b` verbatim, then `(8 - (len(b) mod 8)) mod 8` zero bytes; when
`len(b)` is a multiple of 8 it writes no padding bytes at all (never 8). -/
theorem write_padded_spec (b : List Nat) :
    write_padded b =
      toLE 8 b.length ++ b ++ List.replicate ((8 - b.length % 8) % 8) 0 ∧
    (b.length % 8 = 0 → write_padded b = toLE 8 b.length ++ b) := by
  constructor
  · by_cases h : b.length % 8 > 0
    · have hlt : b.length % 8 < 8 := Nat.mod_lt _ (by norm_num)
      have : (8 - b.length % 8) % 8 = 8 - b.length % 8 := by omega
      simp [write_padded, pad_for, PAD_LEN, h, this]
    · have h0 : b.length % 8 = 0 := by omega
      simp [write_padded, pad_for, PAD_LEN, h0]
  · intro h0
    simp [write_padded, pad_for, PAD_LEN, h0]

theorem write_padded_spec_witness :
    ([1, 2, 3, 4, 5, 6, 7, 8] : List Nat).length % 8 = 0 ∧
      write_padded [1, 2, 3, 4, 5, 6, 7, 8] =
        toLE 8 ([1, 2, 3, 4, 5, 6, 7, 8] : List Nat).length
          ++ [1, 2, 3, 4, 5, 6, 7, 8] :=
  ⟨by decide, (write_padded_spec [1, 2, 3, 4, 5, 6, 7, 8]).2 (by decide)⟩

/-! ## C4 — padding is read exactly and checked for zero -/

/-- C4: for a frame whose payload length `L` is not a multiple of 8, the
decoder reads exactly `8 - (L mod 8)` padding bytes (the rest of the
stream is untouched) and returns `BadPadding` iff any of them is
non-zero. -/
theorem read_bytes_padded_padding (data pad rest : List Nat)
    (hlen : data.length < 2 ^ 64) (hm : data.length % 8 ≠ 0)
    (hpad : pad.length = 8 - data.length % 8) :
    read_bytes_padded (toLE 8 data.length ++ data ++ pad ++ rest) =
      if pad.all (fun b => b = 0) then .ok (data, rest)
      else .error .BadPadding := by
  have h256 : data.length < 256 ^ 8 := by norm_num at hlen ⊢; omega
  have hlen8 : (toLE 8 data.length).length = 8 := toLE_length 8 data.length
  have step1 :
      read_exact PAD_LEN (toLE 8 data.length ++ data ++ pad ++ rest) =
        .ok (toLE 8 data.length, data ++ (pad ++ rest)) := by
    have h2 := read_exact_append (toLE 8 data.length) (data ++ (pad ++ rest))
    rw [hlen8] at h2
    simpa [PAD_LEN, List.append_assoc] using h2
  have step2 := read_exact_append data (pad ++ rest)
  have hgt : data.length % PAD_LEN > 0 := by
    simp only [PAD_LEN]
    omega
  have step3 := read_exact_append pad rest
  rw [hpad] at step3
  have hpd : PAD_LEN - data.length % PAD_LEN = 8 - data.length % 8 := by
    simp [PAD_LEN]
  simp only [List.append_assoc] at step1 ⊢
  simp only [read_bytes_padded, step1, fromLE_toLE 8 data.length h256, step2,
    hgt, if_true, hpd, step3]

theorem read_bytes_padded_padding_witness :
    ([7] : List Nat).length < 2 ^ 64 ∧ ([7] : List Nat).length % 8 ≠ 0 ∧
      ([1, 0, 0, 0, 0, 0, 0] : List Nat).length = 8 - ([7] : List Nat).length % 8 ∧
      read_bytes_padded (toLE 8 ([7] : List Nat).length ++ [7]
          ++ [1, 0, 0, 0, 0, 0, 0] ++ []) =
        if ([1, 0, 0, 0, 0, 0, 0] : List Nat).all (fun b => b = 0)
        then .ok ([7], []) else .error .BadPadding :=
  ⟨by decide, by decide, by decide,
    read_bytes_padded_padding [7] [1, 0, 0, 0, 0, 0, 0] []
      (by decide) (by decide) (by decide)⟩

/-- Reading the frame of a tag always succeeds and returns the tag's bytes
(every tag string is valid UTF-8 and fits a u64). -/
theorem read_utf8_tag_frame (t : Tag) (r : List Nat) :
    read_utf8_padded (write_padded t.into_str ++ r) = .ok (t.into_str, r) := by
  have hl : (t.into_str).length < 2 ^ 64 := by cases t <;> decide
  have hu : isUTF8 t.into_str = true := by cases t <;> decide
  exact read_utf8_frame _ _ hl hu

/-! ## C10 — accessor behaviour on executable regular entries -/

/-- C10: for a Regular entry with the executable flag set, `is_file` is
`false` while `is_executable` is `true`; `is_file` is `true` only for
non-executable Regular entries; and neither `is_dir` nor `is_symlink` is
`true` for it, so no accessor among `is_dir`/`is_file`/`is_symlink`
reports the executable entry's regular-file nature. -/
theorem executable_regular_accessors (p : List (List Nat)) (d : List Nat) :
    (Entry.mk p (.Regular true d)).is_file = false ∧
    (Entry.mk p (.Regular true d)).is_executable = true ∧
    (∀ e : Entry, e.is_file = true ↔ ∃ data, e.kind = .Regular false data) ∧
    (Entry.mk p (.Regular true d)).is_dir = false ∧
    (Entry.mk p (.Regular true d)).is_symlink = false := by
  refine ⟨rfl, rfl, ?_, rfl, rfl⟩
  intro e
  cases e with
  | mk name kind =>
    cases kind with
    | Directory => simp [Entry.is_file]
    | Regular executable data => cases executable <;> simp [Entry.is_file]
    | Symlink target => simp [Entry.is_file]

theorem executable_regular_accessors_witness :
    (Entry.mk [] (.Regular true [])).is_file = false ∧
    (Entry.mk [] (.Regular true [])).is_executable = true ∧
    (∀ e : Entry, e.is_file = true ↔ ∃ data, e.kind = .Regular false data) ∧
    (Entry.mk [] (.Regular true [])).is_dir = false ∧
    (Entry.mk [] (.Regular true [])).is_symlink = false :=
  executable_regular_accessors [] []

/-! ## C2 — the streaming frame writer does not enforce the advertised length -/

/-- C2 (code-bug evaluation): `write_padded_from_reader` succeeds no matter
how many bytes the reader supplies; in particular, with advertised length
5 and a reader at EOF it completes and emits a frame whose length prefix
says 5 followed by zero payload bytes and 3 pad bytes — a malformed frame,
not an error.  The source never compares the byte count moved by
`io::copy` with `len`. -/
theorem write_padded_from_reader_no_check :
    (∀ len supplied, ∃ out, write_padded_from_reader len supplied = .ok out) ∧
    write_padded_from_reader 5 [] = .ok [5, 0, 0, 0, 0, 0, 0, 0, 0, 0, 0] := by
  constructor
  · intro len supplied
    exact ⟨_, rfl⟩
  · rfl

/-! ## C6 — symlink targets must be UTF-8, and are otherwise unconstrained -/

/-- C6 (counterexample to the claim as stated): the byte sequence `[0xFF]`
is not accepted as a symlink target — the parser decodes the target frame
with `read_utf8_padded` and fails with a UTF-8 error. -/
theorem symlink_target_not_raw_bytes :
    try_parse 1 []
      (write_padded Tag.opn.into_str ++ write_padded Tag.type.into_str ++
       write_padded Tag.symlink.into_str ++ write_padded Tag.target.into_str ++
       write_padded [255] ++ write_padded Tag.close.into_str) =
      .error .utf8Error := rfl

/-- C6 (amended): for every symlink node whose target bytes are valid
UTF-8, the parser performs no further validation of the target (it need
not name an existing file) and yields a Symlink entry carrying exactly
those bytes. -/
theorem symlink_target_utf8 (target rest : List Nat) (path : List (List Nat))
    (fuel : Nat) (hu : isUTF8 target = true) (hl : target.length < 2 ^ 64) :
    try_parse (fuel + 1) path
      (write_padded Tag.opn.into_str ++ write_padded Tag.type.into_str ++
       write_padded Tag.symlink.into_str ++ write_padded Tag.target.into_str ++
       write_padded target ++ write_padded Tag.close.into_str ++ rest) =
      .ok ((.symlink target, [⟨path, .Symlink target⟩]), rest) := by
  have h5 := read_utf8_frame target (write_padded Tag.close.into_str ++ rest) hl hu
  have hne : ¬ (Tag.symlink.into_str = Tag.regular.into_str) := by decide
  simp [try_parse, expect_tag_frame, read_utf8_tag_frame, h5, hne]

theorem symlink_target_utf8_witness :
    isUTF8 [46, 47, 102] = true ∧ ([46, 47, 102] : List Nat).length < 2 ^ 64 ∧
      try_parse 1 []
        (write_padded Tag.opn.into_str ++ write_padded Tag.type.into_str ++
         write_padded Tag.symlink.into_str ++ write_padded Tag.target.into_str ++
         write_padded [46, 47, 102] ++ write_padded Tag.close.into_str ++ []) =
        .ok ((.symlink [46, 47, 102], [⟨[], .Symlink [46, 47, 102]⟩]), []) :=
  ⟨by decide, by decide,
    symlink_target_utf8 [46, 47, 102] [] [] 0 (by decide) (by decide)⟩

/-! ## C3 — the unpacker's path-sanitation check -/

/-- C3: `unpack_in` scans every component of the joined destination path
(`dst` joined with the entry's relative path, or `dst` itself for the
root) and, when any component is a platform prefix, a root-directory
component or a parent-directory component, returns `InvalidPathComponent`
without performing any filesystem operation (the error carries no
operation list). -/
theorem unpack_in_component_check (kind : EntryKind) (name : List (List Nat))
    (cm rx : Bool) (dst : List Component)
    (h : (joined_dest name dst).any is_bad_component = true) :
    unpack_in kind name cm rx dst =
      .error (.InvalidPathComponent (joined_dest name dst)) := by
  simp [unpack_in, h]

theorem unpack_in_component_check_witness :
    (joined_dest [[97]] [Component.rootDir, Component.normal [116]]).any
        is_bad_component = true ∧
      unpack_in .Directory [[97]] true true
          [Component.rootDir, Component.normal [116]] =
        .error (.InvalidPathComponent
          (joined_dest [[97]] [Component.rootDir, Component.normal [116]])) :=
  ⟨by decide,
    unpack_in_component_check .Directory [[97]] true true
      [Component.rootDir, Component.normal [116]] (by decide)⟩

/-! ## C5 — directory-entry name validation -/

/-- C5: when the parser reads a directory-entry name, the names `""`, `~`,
`.` and `..` fail with `InvalidDirEntryName` carrying that name; a name
containing the `/` byte fails with `InvalidDirEntryChar('/')`; and the
child node is parsed only when the name passes every check — for a valid
name the parse continues with `node`, the child, and the closing paren. -/
theorem entry_name_validation (fuel : Nat) (path : List (List Nat))
    (n rest : List Nat) :
    ((n = [] ∨ n = [126] ∨ n = [46] ∨ n = [46, 46]) →
      try_parse_entries (fuel + 1) path
        (write_padded Tag.entry.into_str ++ write_padded Tag.opn.into_str ++
         write_padded Tag.name.into_str ++ write_padded n ++ rest) =
        .error (.InvalidDirEntryName n)) ∧
    (isUTF8 n = true → n.length < 2 ^ 64 → n.contains 47 = true →
      try_parse_entries (fuel + 1) path
        (write_padded Tag.entry.into_str ++ write_padded Tag.opn.into_str ++
         write_padded Tag.name.into_str ++ write_padded n ++ rest) =
        .error (.InvalidDirEntryChar 47)) ∧
    (isUTF8 n = true → n.length < 2 ^ 64 → validName n = true →
      try_parse_entries (fuel + 1) path
        (write_padded Tag.entry.into_str ++ write_padded Tag.opn.into_str ++
         write_padded Tag.name.into_str ++ write_padded n ++ rest) =
        (match expect_tag .node rest with
         | .error e => .error e
         | .ok s =>
           match try_parse fuel (path ++ [n]) s with
           | .error e => .error e
           | .ok ((child, child_entries), s) =>
           match expect_tag .close s with
           | .error e => .error e
           | .ok s =>
           match try_parse_entries fuel path s with
           | .error e => .error e
           | .ok ((rest_children, rest_entries), s) =>
             .ok ((.cons n child rest_children,
                   child_entries ++ rest_entries), s))) := by
  refine ⟨?_, ?_, ?_⟩
  · rintro (rfl | rfl | rfl | rfl)
    · simp [try_parse_entries, read_utf8_tag_frame, expect_tag_frame,
        read_utf8_frame [] rest (by decide) (by decide)]
    · simp [try_parse_entries, read_utf8_tag_frame, expect_tag_frame,
        read_utf8_frame [126] rest (by decide) (by decide)]
    · simp [try_parse_entries, read_utf8_tag_frame, expect_tag_frame,
        read_utf8_frame [46] rest (by decide) (by decide)]
    · simp [try_parse_entries, read_utf8_tag_frame, expect_tag_frame,
        read_utf8_frame [46, 46] rest (by decide) (by decide)]
  · intro hu hl hcont
    have h0 : ¬ n = [] := by rintro rfl; exact absurd hcont (by decide)
    have h1 : ¬ n = [126] := by rintro rfl; exact absurd hcont (by decide)
    have h2 : ¬ n = [46] := by rintro rfl; exact absurd hcont (by decide)
    have h3 : ¬ n = [46, 46] := by rintro rfl; exact absurd hcont (by decide)
    have h5 := read_utf8_frame n rest hl hu
    have hmem : 47 ∈ n := by simpa using hcont
    simp [try_parse_entries, read_utf8_tag_frame, expect_tag_frame, h5,
      h0, h1, h2, h3, hmem]
  · intro hu hl hv
    simp only [validName, Bool.and_eq_true, Bool.not_eq_true',
      beq_eq_false_iff_ne, ne_eq] at hv
    obtain ⟨⟨⟨⟨h0, h1⟩, h2⟩, h3⟩, h4⟩ := hv
    have h5 := read_utf8_frame n rest hl hu
    have hmem : ¬ 47 ∈ n := by simpa using h4
    simp [try_parse_entries, read_utf8_tag_frame, expect_tag_frame, h5,
      h0, h1, h2, h3, hmem]

theorem entry_name_validation_witness :
    try_parse_entries 1 []
      (write_padded Tag.entry.into_str ++ write_padded Tag.opn.into_str ++
       write_padded Tag.name.into_str ++ write_padded [46] ++ []) =
      .error (.InvalidDirEntryName [46]) :=
  (entry_name_validation 0 [] [46] []).1 (Or.inr (Or.inr (Or.inl rfl)))

/-! ## Order lemmas for the sibling sort -/

/-- Induction on the spine of a child list (the tree structure of the
nodes is untouched). -/
theorem children_spine_ind (motive : Children → Prop) (hnil : motive .nil)
    (hcons : ∀ n t r, motive r → motive (.cons n t r)) : ∀ cs, motive cs :=
  @Children.rec (fun _ => True) motive (fun _ _ => trivial) (fun _ => trivial)
    (fun _ _ => trivial) hnil (fun n t r _ hr => hcons n t r hr)

theorem lexLe_total : ∀ a b : List Nat, lexLe a b = true ∨ lexLe b a = true
  | [], _ => Or.inl rfl
  | _ :: _, [] => Or.inr rfl
  | a :: as, b :: bs => by
    rcases Nat.lt_trichotomy a b with h | h | h
    · left
      simp [lexLe, h]
    · subst h
      rcases lexLe_total as bs with ih | ih
      · left
        simp [lexLe, ih]
      · right
        simp [lexLe, ih]
    · right
      simp [lexLe, h]

theorem lexLe_trans :
    ∀ a b c : List Nat, lexLe a b = true → lexLe b c = true → lexLe a c = true
  | [], _, _, _, _ => rfl
  | _ :: _, [], _, h1, _ => by simp [lexLe] at h1
  | _ :: _, _ :: _, [], _, h2 => by simp [lexLe] at h2
  | a :: as, b :: bs, c :: cs, h1, h2 => by
    simp only [lexLe] at h1 h2 ⊢
    rcases Nat.lt_trichotomy a b with hab | hab | hab
    · rcases Nat.lt_trichotomy b c with hbc | hbc | hbc
      · simp [lt_trans hab hbc]
      · subst hbc
        simp [hab]
      · rw [if_neg (by omega), if_pos hbc] at h2
        exact absurd h2 (by simp)
    · subst hab
      rw [if_neg (lt_irrefl a), if_neg (lt_irrefl a)] at h1
      by_cases hac : a < c
      · simp [hac]
      · by_cases hca : c < a
        · rw [if_neg hac, if_pos hca] at h2
          exact absurd h2 (by simp)
        · rw [if_neg hac, if_neg hca] at h2 ⊢
          exact lexLe_trans as bs cs h1 h2
    · rw [if_neg (by omega), if_pos hab] at h1
      exact absurd h1 (by simp)

theorem lexLt_of_le_ne :
    ∀ a b : List Nat, lexLe a b = true → a ≠ b → lexLt a b = true
  | [], [], _, hne => absurd rfl hne
  | [], _ :: _, _, _ => rfl
  | _ :: _, [], h, _ => by simp [lexLe] at h
  | a :: as, b :: bs, h, hne => by
    simp only [lexLe] at h
    simp only [lexLt]
    by_cases hab : a < b
    · simp [hab]
    · by_cases hba : b < a
      · rw [if_neg hab, if_pos hba] at h
        exact absurd h (by simp)
      · have hae : a = b := by omega
        subst hae
        rw [if_neg hab, if_neg hba] at h ⊢
        exact lexLt_of_le_ne as bs h (fun hh => hne (by rw [hh]))

theorem insort_perm (c : List Nat × List Nat) :
    ∀ l, List.Perm (insort_frame c l) (c :: l)
  | [] => List.Perm.refl _
  | d :: ds => by
    by_cases h : lexLe c.1 d.1
    · rw [insort_frame, if_pos h]
    · rw [insort_frame, if_neg h]
      exact ((insort_perm c ds).cons d).trans (List.Perm.swap c d ds)

theorem sort_frames_perm : ∀ l, List.Perm (sort_frames l) l
  | [] => List.Perm.refl _
  | c :: cs =>
    (insort_perm c (sort_frames cs)).trans ((sort_frames_perm cs).cons c)

theorem pairwise_insort (c : List Nat × List Nat) :
    ∀ l, l.Pairwise (fun a b => lexLe a.1 b.1 = true) →
      (insort_frame c l).Pairwise (fun a b => lexLe a.1 b.1 = true)
  | [], _ => by simp [insort_frame]
  | d :: ds, h => by
    rcases List.pairwise_cons.mp h with ⟨hd, hds⟩
    by_cases hle : lexLe c.1 d.1
    · rw [insort_frame, if_pos hle]
      refine List.pairwise_cons.mpr ⟨?_, h⟩
      intro x hx
      rcases List.mem_cons.mp hx with rfl | hx
      · exact hle
      · exact lexLe_trans _ _ _ hle (hd x hx)
    · rw [insort_frame, if_neg hle]
      refine List.pairwise_cons.mpr ⟨?_, pairwise_insort c ds hds⟩
      intro x hx
      rcases List.mem_cons.mp ((insort_perm c ds).mem_iff.mp hx) with rfl | hx'
      · rcases lexLe_total x.1 d.1 with hh | hh
        · exact absurd hh hle
        · exact hh
      · exact hd x hx'

theorem pairwise_sort_frames :
    ∀ l, (sort_frames l).Pairwise (fun a b => lexLe a.1 b.1 = true)
  | [] => List.Pairwise.nil
  | c :: cs => pairwise_insort c _ (pairwise_sort_frames cs)

theorem insort_le_head (c : List Nat × List Nat) :
    ∀ l, (∀ x ∈ l, lexLe c.1 x.1 = true) → insort_frame c l = c :: l
  | [], _ => rfl
  | d :: ds, h => by rw [insort_frame, if_pos (h d (List.mem_cons_self d ds))]

theorem sort_frames_id :
    ∀ l, l.Pairwise (fun a b => lexLe a.1 b.1 = true) → sort_frames l = l
  | [], _ => rfl
  | c :: cs, h => by
    rcases List.pairwise_cons.mp h with ⟨hc, hcs⟩
    rw [sort_frames, sort_frames_id cs hcs, insort_le_head c cs hc]

theorem encode_children_keys :
    ∀ cs, (encode_children cs).map Prod.fst = childNames cs := by
  intro cs
  induction cs using children_spine_ind with
  | hnil => rfl
  | hcons n t r ih => simp [encode_children, childNames, ih]

theorem namesSortedLe_pairwise :
    ∀ cs, namesSortedLe cs = true →
      (childNames cs).Pairwise (fun a b => lexLe a b = true) := by
  intro cs
  induction cs using children_spine_ind with
  | hnil => intro _; simp [childNames]
  | hcons n t r ih =>
    intro h
    cases r with
    | nil => simp [childNames]
    | cons m u rr =>
      have h' : lexLe n m = true ∧ namesSortedLe (.cons m u rr) = true := by
        simpa [namesSortedLe, Bool.and_eq_true] using h
      have hp := ih h'.2
      simp only [childNames] at hp ⊢
      refine List.pairwise_cons.mpr ⟨?_, hp⟩
      intro x hx
      rcases List.mem_cons.mp hx with rfl | hx
      · exact h'.1
      · exact lexLe_trans _ _ _ h'.1 ((List.pairwise_cons.mp hp).1 x hx)

/-! ## C7 — directory children are emitted in strictly ascending name order -/

/-- C7: for every directory, `encode_entry` emits the child entry records
as the name-sorted arrangement of the (arbitrarily ordered) listing, and
with pairwise-distinct sibling names (a filesystem invariant) the emitted
sequence is strictly ascending in byte-lexicographic name order. -/
theorem encode_directory_sorted (cs : Children)
    (h : (childNames cs).Nodup) :
    encode_entry (.directory cs) =
      write_padded Tag.opn.into_str ++ write_padded Tag.type.into_str ++
      write_padded Tag.directory.into_str ++
      frames_concat (sort_frames (encode_children cs)) ++
      write_padded Tag.close.into_str ∧
    (sort_frames (encode_children cs)).Pairwise
      (fun a b => lexLt a.1 b.1 = true) := by
  refine ⟨rfl, ?_⟩
  have hle := pairwise_sort_frames (encode_children cs)
  have hperm : List.Perm ((sort_frames (encode_children cs)).map Prod.fst) (childNames cs) := by
    rw [← encode_children_keys cs]
    exact (sort_frames_perm (encode_children cs)).map Prod.fst
  have hnd : ((sort_frames (encode_children cs)).map Prod.fst).Nodup :=
    hperm.nodup_iff.mpr h
  have hne : (sort_frames (encode_children cs)).Pairwise
      (fun a b => a.1 ≠ b.1) := List.pairwise_map.mp hnd
  exact (hle.and hne).imp (fun hab => lexLt_of_le_ne _ _ hab.1 hab.2)

theorem encode_directory_sorted_witness :
    (childNames (.cons [98] (.regular false [])
        (.cons [97] (.symlink [46]) .nil))).Nodup ∧
    (sort_frames (encode_children (.cons [98] (.regular false [])
        (.cons [97] (.symlink [46]) .nil)))).Pairwise
      (fun a b => lexLt a.1 b.1 = true) :=
  ⟨by decide,
    (encode_directory_sorted (.cons [98] (.regular false [])
      (.cons [97] (.symlink [46]) .nil)) (by decide)).2⟩

/-! ## C8 — entries are yielded in pre-order with joined paths -/

/-- Whatever the parser accepts, the yielded entry list is exactly the
pre-order flattening of the parsed tree at the starting path. -/
theorem parse_flatten_aux : ∀ fuel : Nat,
    (∀ path s t es rest, try_parse fuel path s = .ok ((t, es), rest) →
      es = flatten_pre path t) ∧
    (∀ path s cs es rest, try_parse_entries fuel path s = .ok ((cs, es), rest) →
      es = flatten_children path cs) := by
  intro fuel
  induction fuel with
  | zero =>
    constructor
    · intro path s t es rest h
      simp [try_parse] at h
    · intro path s cs es rest h
      simp [try_parse_entries] at h
  | succ fuel ih =>
    constructor
    · intro path s t es rest h
      simp only [try_parse] at h
      repeat' split at h
      all_goals simp only [reduceCtorEq, Except.ok.injEq, Prod.mk.injEq] at h
      all_goals obtain ⟨⟨ht, hes⟩, hrest⟩ := h
      all_goals subst ht
      all_goals subst hes
      all_goals try rfl
      rename_i x1 children entries s' heq
      simp only [flatten_pre]
      rw [ih.2 _ _ _ _ _ heq]
    · intro path s cs es rest h
      simp only [try_parse_entries] at h
      repeat' split at h
      all_goals simp only [reduceCtorEq, Except.ok.injEq, Prod.mk.injEq] at h
      all_goals obtain ⟨⟨hcs, hes⟩, hrest⟩ := h
      all_goals subst hcs
      all_goals subst hes
      all_goals try rfl
      rename_i x1 childN childE s1 heqChild x2 s2 heqClose x3 restC restE s4 heqRest
      simp only [flatten_children]
      rw [ih.1 _ _ _ _ _ heqChild, ih.2 _ _ _ _ _ heqRest]

/-- C8: for every stream the deserializer accepts, the entry iterator
yields the pre-order depth-first traversal of the parsed tree: a directory
entry precedes all of its descendants, the root entry's path is empty, and
every descendant's path is its parent's path joined with its own name —
the yield list equals `flatten_pre [] t`. -/
theorem entries_preorder (fuel : Nat) (s : List Nat) (t : Node)
    (es : List Entry) (rest : List Nat)
    (h : parse_archive fuel s = .ok ((t, es), rest)) :
    es = flatten_pre [] t := by
  simp only [parse_archive] at h
  split at h
  · exact absurd h (by simp)
  · split at h
    · exact absurd h (by simp)
    · exact (parse_flatten_aux fuel).1 _ _ _ _ _ h

set_option maxRecDepth 8192 in
theorem entries_preorder_witness :
    parse_archive 3 (to_writer (.directory
        (.cons [97] (.regular false [104, 105]) .nil))) =
      .ok (((.directory (.cons [97] (.regular false [104, 105]) .nil)),
            [⟨[], .Directory⟩, ⟨[[97]], .Regular false [104, 105]⟩]), []) ∧
    ([⟨[], .Directory⟩, ⟨[[97]], .Regular false [104, 105]⟩] : List Entry) =
      flatten_pre [] (.directory (.cons [97] (.regular false [104, 105]) .nil)) := by
  have h : parse_archive 3 (to_writer (.directory
      (.cons [97] (.regular false [104, 105]) .nil))) =
      .ok (((.directory (.cons [97] (.regular false [104, 105]) .nil)),
            [⟨[], .Directory⟩, ⟨[[97]], .Regular false [104, 105]⟩]), []) := rfl
  exact ⟨h, entries_preorder 3 _ _ _ [] h⟩

/-! ## C1 — decode ∘ encode is the identity on canonical trees -/

/-- On a directory whose listing is already name-sorted, the serializer's
sibling sort is the identity. -/
theorem sort_encode_children_id (cs : Children) (h : namesSortedLe cs = true) :
    sort_frames (encode_children cs) = encode_children cs := by
  apply sort_frames_id
  have hp := namesSortedLe_pairwise cs h
  rw [← encode_children_keys cs] at hp
  exact List.pairwise_map.mp hp

theorem needFuel_pos (t : Node) : 1 ≤ needFuel t := by
  cases t with
  | regular executable data => simp [needFuel]
  | symlink target => simp [needFuel]
  | directory cs => simp [needFuel]

theorem needFuelChildren_pos (cs : Children) : 1 ≤ needFuelChildren cs := by
  cases cs with
  | nil => simp [needFuelChildren]
  | cons n t r => simp [needFuelChildren]

/-- Parsing the encoding of a valid, canonically sorted tree returns
exactly that tree, its pre-order entries, and the untouched rest of the
stream. -/
theorem parse_encode_node :
    ∀ t : Node, validNode t = true → sortedNode t = true →
      ∀ fuel path rest, needFuel t ≤ fuel →
        try_parse fuel path (encode_entry t ++ rest) =
          .ok ((t, flatten_pre path t), rest) :=
  @Node.rec
    (fun t => validNode t = true → sortedNode t = true →
      ∀ fuel path rest, needFuel t ≤ fuel →
        try_parse fuel path (encode_entry t ++ rest) =
          .ok ((t, flatten_pre path t), rest))
    (fun cs => validChildren cs = true → sortedChildren cs = true →
      ∀ fuel path rest, needFuelChildren cs ≤ fuel →
        try_parse_entries fuel path
            (frames_concat (encode_children cs) ++
              write_padded Tag.close.into_str ++ rest) =
          .ok ((cs, flatten_children path cs), rest))
    (fun executable data => by
      intro hv hs fuel path rest hf
      simp only [validNode, decide_eq_true_eq] at hv
      cases fuel with
      | zero => simp [needFuel] at hf
      | succ f =>
        have hdata := read_write_padded data
          (write_padded Tag.close.into_str ++ rest) hv
        have hne1 : ¬ (Tag.contents.into_str = Tag.executable.into_str) := by
          decide
        cases executable with
        | true =>
          simp [encode_entry, try_parse, expect_tag_frame, read_utf8_tag_frame,
            hdata, flatten_pre, List.append_assoc]
        | false =>
          simp [encode_entry, try_parse, expect_tag_frame, read_utf8_tag_frame,
            hdata, hne1, flatten_pre, List.append_assoc])
    (fun target => by
      intro hv hs fuel path rest hf
      simp only [validNode, Bool.and_eq_true, decide_eq_true_eq] at hv
      cases fuel with
      | zero => simp [needFuel] at hf
      | succ f =>
        have htgt := read_utf8_frame target
          (write_padded Tag.close.into_str ++ rest) hv.2 hv.1
        have hne1 : ¬ (Tag.symlink.into_str = Tag.regular.into_str) := by
          decide
        simp [encode_entry, try_parse, expect_tag_frame, read_utf8_tag_frame,
          htgt, hne1, flatten_pre, List.append_assoc])
    (fun cs ihcs => by
      intro hv hs fuel path rest hf
      simp only [validNode] at hv
      simp only [sortedNode, Bool.and_eq_true] at hs
      cases fuel with
      | zero =>
        simp only [needFuel] at hf
        omega
      | succ f =>
        have hf' : needFuelChildren cs ≤ f := by
          simp only [needFuel] at hf
          omega
        have hrec := ihcs hv hs.2 f path rest hf'
        simp only [List.append_assoc] at hrec
        have hne1 : ¬ (Tag.directory.into_str = Tag.regular.into_str) := by
          decide
        have hne2 : ¬ (Tag.directory.into_str = Tag.symlink.into_str) := by
          decide
        simp only [encode_entry, sort_encode_children_id cs hs.1]
        simp [try_parse, expect_tag_frame, read_utf8_tag_frame, hne1, hne2,
          hrec, flatten_pre, List.append_assoc])
    (by
      intro hv hs fuel path rest hf
      cases fuel with
      | zero => simp [needFuelChildren] at hf
      | succ f =>
        have hne1 : ¬ (Tag.close.into_str = Tag.entry.into_str) := by decide
        simp [frames_concat, try_parse_entries, read_utf8_tag_frame, hne1,
          flatten_children])
    (fun n t r iht ihr => by
      intro hv hs fuel path rest hf
      simp only [validChildren, Bool.and_eq_true, decide_eq_true_eq] at hv
      obtain ⟨⟨⟨⟨hvn, hun⟩, hln⟩, hvt⟩, hvr⟩ := hv
      simp only [sortedChildren, Bool.and_eq_true] at hs
      cases fuel with
      | zero =>
        simp only [needFuelChildren] at hf
        omega
      | succ f =>
        have hft : needFuel t ≤ f := by
          simp only [needFuelChildren] at hf
          omega
        have hfr : needFuelChildren r ≤ f := by
          simp only [needFuelChildren] at hf
          omega
        simp only [validName, Bool.and_eq_true, Bool.not_eq_true',
          beq_eq_false_iff_ne, ne_eq] at hvn
        obtain ⟨⟨⟨⟨h0, h1⟩, h2⟩, h3⟩, h4⟩ := hvn
        have hmem : ¬ 47 ∈ n := by simpa using h4
        have hname := read_utf8_frame n
          (write_padded Tag.node.into_str ++ (encode_entry t ++
            (write_padded Tag.close.into_str ++
              (frames_concat (encode_children r) ++
                (write_padded Tag.close.into_str ++ rest))))) hln hun
        have hchild := iht hvt hs.1 f (path ++ [n])
          (write_padded Tag.close.into_str ++
            (frames_concat (encode_children r) ++
              (write_padded Tag.close.into_str ++ rest))) hft
        have hrest := ihr hvr hs.2 f path rest hfr
        simp only [List.append_assoc] at hrest
        simp [frames_concat, entry_frame, try_parse_entries,
          read_utf8_tag_frame, expect_tag_frame, hname, h0, h1, h2, h3, hmem,
          hchild, hrest, flatten_children, List.append_assoc])

/-- C1 (amended): for every tree whose directory child names pass the
parser's name validation, whose names and symlink targets are valid UTF-8
with u64-representable lengths, and whose directories list children in
canonical byte-lexicographic order, decoding the encoding yields exactly
the tree back (together with its pre-order entry sequence, consuming the
whole stream). -/
theorem decode_encode (t : Node) (hv : validNode t = true)
    (hs : sortedNode t = true) (fuel : Nat) (hf : needFuel t ≤ fuel) :
    parse_archive fuel (to_writer t) = .ok ((t, flatten_pre [] t), []) := by
  have hm := read_write_padded NIX_VERSION_MAGIC (encode_entry t) (by decide)
  have hp : encode_entry t = encode_entry t ++ [] := (List.append_nil _).symm
  simp only [parse_archive, to_writer, hm, ne_eq, not_true_eq_false,
    if_false, ite_false]
  rw [hp]
  exact parse_encode_node t hv hs fuel [] [] hf

set_option maxRecDepth 8192 in
/-- C1 (counterexample to the claim as stated): a directory containing a
child named `~` — a legitimate filesystem tree built from the allowed node
kinds — does not survive the round trip: the serializer emits it but the
parser rejects the stream with `InvalidDirEntryName "~"`. -/
theorem decode_encode_tilde :
    parse_archive 2 (to_writer (.directory
        (.cons [126] (.regular false []) .nil))) =
      .error (.InvalidDirEntryName [126]) := rfl

theorem decode_encode_witness :
    validNode (.directory (.cons [97] (.regular true [104])
        (.cons [98] (.symlink [47, 116]) .nil))) = true ∧
    sortedNode (.directory (.cons [97] (.regular true [104])
        (.cons [98] (.symlink [47, 116]) .nil))) = true ∧
    needFuel (.directory (.cons [97] (.regular true [104])
        (.cons [98] (.symlink [47, 116]) .nil))) ≤ 4 ∧
    parse_archive 4 (to_writer (.directory (.cons [97] (.regular true [104])
        (.cons [98] (.symlink [47, 116]) .nil))) ) =
      .ok (((.directory (.cons [97] (.regular true [104])
        (.cons [98] (.symlink [47, 116]) .nil))),
        flatten_pre [] (.directory (.cons [97] (.regular true [104])
          (.cons [98] (.symlink [47, 116]) .nil)))), []) :=
  ⟨by decide, by decide, by decide,
    decode_encode (.directory (.cons [97] (.regular true [104])
      (.cons [98] (.symlink [47, 116]) .nil))) (by decide) (by decide) 4
      (by decide)⟩

end Libnar
